import Mathlib

/-
Shallow embedding of the reconciliation core of `src/options.ts` together
with the callback-to-promise adapter of `src/api.ts`.

Modelling conventions:
  * A TypeScript string is a Lean `String` (a list of unicode scalar values).
  * The record `Record<string, CookieSettingsEntry>` is an association list
    from keys to entries; JavaScript object semantics (computed-key removal
    by spread destructuring, insertion with overwrite) are given by
    `removeKey` and `setKey`.
  * `undefined` values are `Option.none`.  A JavaScript template literal
    stringifies `undefined` as the string "undefined"; `jsTemplateOpt`
    captures that.
  * The external world (rule engine = chrome.contentSettings.cookies,
    canonical store = chrome.storage.sync, in-memory mirror =
    `currentSettings`) is a `World`.  Which external calls fail is decided
    by an oracle `Env`; a failed call leaves the world unchanged and
    reports `false`.
  * Each UI-triggered operation returns an `OpResult`: the final world,
    the sequence of external-call events it produced (`Event.issue c`
    records that call `c` was started; `Event.awaited c` records that the
    operation suspended until `c` settled — an `await`, or membership in an
    awaited `Promise.allSettled`), and whether the operation ran to
    completion without an unhandled rejection.
  * DOM rendering (`updateTable`, `createTableRow`) is display-only and is
    not part of the state model; the status line of `updateStatus` is
    modelled separately for the adapter contract.
-/

/-- `Pick<chrome.contentSettings.CookieSetDetails, "primaryPattern" | "secondaryPattern" | "setting">`.
`setting` is a string drawn from a fixed enumeration; modelled as `String`. -/
structure CookieSettingsEntry where
  primaryPattern : String
  secondaryPattern : Option String
  setting : String
deriving DecidableEq

/-- JavaScript template-literal stringification of a possibly-`undefined`
string: `undefined` prints as "undefined". -/
def jsTemplateOpt : Option String → String
  | some s => s
  | none => "undefined"

/-- `keyForEntry` from options.ts: a template literal joining
`entry.primaryPattern` and `entry.secondaryPattern` with a semicolon. -/
def keyForEntry (entry : CookieSettingsEntry) : String :=
  entry.primaryPattern ++ ";" ++ jsTemplateOpt entry.secondaryPattern

/-- `type CookieSettings = Record<string, CookieSettingsEntry>`. -/
abbrev CookieSettings := List (String × CookieSettingsEntry)

/-- JavaScript computed-key spread destructuring of an object: the object
minus key `k`, remaining properties in order. -/
def removeKey (s : CookieSettings) (k : String) : CookieSettings :=
  s.filter (fun p => decide (p.1 ≠ k))

/-- JavaScript object spread of `obj` followed by computed key `k` set to
`v`: overwrite in place when `k` is already a property, otherwise append. -/
def setKey (s : CookieSettings) (k : String) (e : CookieSettingsEntry) : CookieSettings :=
  if s.any (fun p => decide (p.1 = k)) then
    s.map (fun p => if p.1 = k then (k, e) else p)
  else
    s ++ [(k, e)]

/- ------------------------------------------------------------------
   autoCompletePath (options.ts):

       patternWithoutPath = new RegExp of "^(.+//[^/]+)(/)?$"
       match = pattern.match of patternWithoutPath
       if match is non-null, return group 1 of the match plus "/*",
       else return pattern unchanged.

   The regular expression (no flags) is embedded directly:
     * `.` matches any character except a line terminator
       (\n, \r, U+2028, U+2029);
     * `[^/]` matches any character except a slash (including line
       terminators);
     * `.+` is greedy, so the split at the literal `//` is tried from the
       longest prefix downwards;
     * group 1 is everything up to but excluding the optional final `/`.
   ------------------------------------------------------------------ -/

/-- Does the JavaScript regex atom `.` (no dotAll flag) match this
character? -/
def jsDotChar (c : Char) : Bool :=
  decide (c ≠ '\n') && decide (c ≠ '\r') && decide (c ≠ '\u2028') && decide (c ≠ '\u2029')

/-- Every character matches `.` — the `.+` part of the pattern. -/
def noLineTerm (l : List Char) : Bool := l.all jsDotChar

/-- Every character matches `[^/]`. -/
def noSlash (l : List Char) : Bool := l.all (fun c => decide (c ≠ '/'))

/-- Remove the optional final `/` consumed by the `(/)?` group. -/
def stripTrailingSlash (l : List Char) : List Char :=
  if l.getLast? = some '/' then l.dropLast else l

/-- Does `l` match `[^/]+(/)?$` (a nonempty slash-free run, then an
optional final slash, then end of input)? -/
def tailMatches (l : List Char) : Bool :=
  decide (stripTrailingSlash l ≠ []) && noSlash (stripTrailingSlash l)

/-- Greedy search for the match of `^(.+//[^/]+)(/)?$`: try the split
where `.+` has length `i`, `i` descending; return group 1 on success. -/
def matchGroup1From (cs : List Char) : Nat → Option (List Char)
  | 0 => none
  | Nat.succ i =>
    if (cs.drop (i + 1)).take 2 = ['/', '/']
        ∧ noLineTerm (cs.take (i + 1)) = true
        ∧ tailMatches ((cs.drop (i + 1)).drop 2) = true
    then some (cs.take (i + 1) ++ ['/', '/'] ++ stripTrailingSlash ((cs.drop (i + 1)).drop 2))
    else matchGroup1From cs i

/-- Group 1 of `pattern.match(new RegExp("^(.+//[^/]+)(/)?$"))`, when the
regex matches. -/
def matchGroup1 (cs : List Char) : Option (List Char) :=
  matchGroup1From cs cs.length

/-- `autoCompletePath` from options.ts. -/
def autoCompletePath (pattern : String) : String :=
  match matchGroup1 pattern.data with
  | some g => String.mk (g ++ ['/', '*'])
  | none => pattern

/- ------------------------------------------------------------------
   Async adapter (api.ts) and status reporter (options.ts).
   ------------------------------------------------------------------ -/

/-- `chrome.runtime.lastError`: an error object whose `message` field may
itself be `undefined`. -/
structure ChromeError where
  message : Option String
deriving DecidableEq

/-- Outcome of the promise produced by `api(object, fn, ...fnArgs)` once
the completion callback fires: the callback body is
`if (chrome.runtime.lastError) reject(chrome.runtime.lastError) else resolve(cbArg)`.
`cbArg` is `none` when the callback was invoked without a value. -/
def apiOutcome {α : Type} (lastError : Option ChromeError) (cbArg : Option α) :
    Except ChromeError (Option α) :=
  match lastError with
  | some e => Except.error e
  | none => Except.ok cbArg

/-- Text rendered by `updateStatus` in options.ts:
`lastError.message || "Unknown error"` when an error is present, the empty
string otherwise. -/
def updateStatusText (lastError : Option ChromeError) : String :=
  match lastError with
  | some e =>
    match e.message with
    | some m => if m = "" then "Unknown error" else m
    | none => "Unknown error"
  | none => ""

/-- Result of the wrapped adapter
`api` delegating to `_api` with a `finally` hook calling `updateStatus`:
the settled outcome together with the status updates the call triggered. -/
structure WrappedResult (α : Type) where
  result : Except ChromeError (Option α)
  statusUpdates : List String

/-- The wrapped adapter: settle the underlying promise, then (in the
`finally` hook) read the ambient error signal once more and render it.
`finally` re-raises the original outcome unchanged. -/
def wrappedApi {α : Type} (lastError : Option ChromeError) (cbArg : Option α) :
    WrappedResult α :=
  { result := apiOutcome lastError cbArg
  , statusUpdates := [updateStatusText lastError] }

/- ------------------------------------------------------------------
   World state, failure oracle, external calls, operations.
   ------------------------------------------------------------------ -/

/-- External mutable state visible to options.ts: the rule engine
(`chrome.contentSettings.cookies`, as the list of entries set since the
last clear), the synchronized store (`chrome.storage.sync`, whose
`cookieSettings` key may be absent), and the in-memory mirror
(`currentSettings`). -/
structure World where
  engine : List CookieSettingsEntry
  store : Option CookieSettings
  mirror : CookieSettings
deriving DecidableEq

/-- Failure oracle: which external calls report `chrome.runtime.lastError`. -/
structure Env where
  engineClearFails : Bool
  engineSetFails : CookieSettingsEntry → Bool
  storeGetFails : Bool
  storeSetFails : Bool
  storeClearFails : Bool

/-- `chrome.contentSettings.cookies.clear` with an empty details object. -/
def engineClear (env : Env) (w : World) : World × Bool :=
  if env.engineClearFails then (w, false) else ({ w with engine := [] }, true)

/-- `chrome.contentSettings.cookies.set(entry)`. -/
def engineSet (env : Env) (w : World) (e : CookieSettingsEntry) : World × Bool :=
  if env.engineSetFails e then (w, false) else ({ w with engine := w.engine ++ [e] }, true)

/-- `chrome.storage.sync.set` of the cookieSettings key to `v` —
all-or-nothing. -/
def storeSet (env : Env) (w : World) (v : CookieSettings) : World × Bool :=
  if env.storeSetFails then (w, false) else ({ w with store := some v }, true)

/-- `chrome.storage.sync.clear()`. -/
def storeClear (env : Env) (w : World) : World × Bool :=
  if env.storeClearFails then (w, false) else ({ w with store := none }, true)

/-- `chrome.storage.sync.get("cookieSettings")` — delivers the persisted
value, `none` when absent. -/
def storeGet (env : Env) (w : World) : World × Option CookieSettings × Bool :=
  if env.storeGetFails then (w, none, false) else (w, w.store, true)

/-- The distinct external calls an operation can issue. -/
inductive CallKind where
  | engineClearC
  | engineSetC (e : CookieSettingsEntry)
  | storeGetC
  | storeSetC (v : CookieSettings)
  | storeClearC
deriving DecidableEq

/-- Observable scheduling events of one operation. -/
inductive Event where
  | issue (c : CallKind)
  | awaited (c : CallKind)
deriving DecidableEq

/-- Result of running one UI-triggered operation. -/
structure OpResult where
  world : World
  trace : List Event
  ok : Bool

/-- The operation suspends until every call it issued has settled
(every issued call also appears as awaited in its trace). -/
def waitsForIssued (t : List Event) : Bool :=
  t.all (fun ev =>
    match ev with
    | Event.issue c => t.any (fun x => decide (x = Event.awaited c))
    | Event.awaited _ => true)

/-- Apply the rule-engine `set` calls of a replay, in issue order
(`Object.values(entries).map((entry) => api(chrome.contentSettings.cookies, "set", entry))`). -/
def replayAll (env : Env) (es : CookieSettings) (w : World) : World :=
  es.foldl (fun acc p => (engineSet env acc p.2).1) w

/-- Trace of `await Promise.allSettled(entries.map(set))`: all calls are
started before any is awaited, then the join suspends until every one has
settled. -/
def replayTrace (es : CookieSettings) : List Event :=
  es.map (fun p => Event.issue (CallKind.engineSetC p.2))
    ++ es.map (fun p => Event.awaited (CallKind.engineSetC p.2))

/-- `onSyncedSettings` from options.ts: replace the mirror wholesale,
treating an absent value as the empty rule set
(`currentSettings` becomes `cookieSettings` when truthy and the empty
object otherwise).  The subsequent `updateTable` call is display-only. -/
def onSyncedSettings (w : World) (cookieSettings : Option CookieSettings) : World :=
  { w with mirror := cookieSettings.getD [] }

/-- `removeEntry` from options.ts:
clear the engine, replay every remaining entry with an allow-partial-failure
join, then persist the remaining set regardless of replay failures.
An `await` of a failed call (clear, or the final persist) rejects the
enclosing async function, skipping the rest. -/
def removeEntry (env : Env) (w : World) (entry : CookieSettingsEntry) : OpResult :=
  let c := engineClear env w
  let tClear := [Event.issue CallKind.engineClearC, Event.awaited CallKind.engineClearC]
  if c.2 = false then
    { world := c.1, trace := tClear, ok := false }
  else
    let remainingEntries := removeKey c.1.mirror (keyForEntry entry)
    let w2 := replayAll env remainingEntries c.1
    let s := storeSet env w2 remainingEntries
    { world := s.1
    , trace := tClear ++ replayTrace remainingEntries
        ++ [Event.issue (CallKind.storeSetC remainingEntries),
            Event.awaited (CallKind.storeSetC remainingEntries)]
    , ok := s.2 }

/-- The `addForm` submit handler from options.ts: build the entry from the
form inputs (an empty secondary-pattern input means `undefined`), push it
to the rule engine, then persist the mirror with the entry inserted under
its key. -/
def addFormSubmit (env : Env) (w : World)
    (primaryInput secondaryInput settingValue : String) : OpResult :=
  let entry : CookieSettingsEntry :=
    { primaryPattern := autoCompletePath primaryInput
    , secondaryPattern :=
        if secondaryInput = "" then none else some (autoCompletePath secondaryInput)
    , setting := settingValue }
  let c := engineSet env w entry
  let tSet := [Event.issue (CallKind.engineSetC entry), Event.awaited (CallKind.engineSetC entry)]
  if c.2 = false then
    { world := c.1, trace := tSet, ok := false }
  else
    let newSettings := setKey c.1.mirror (keyForEntry entry) entry
    let s := storeSet env c.1 newSettings
    { world := s.1
    , trace := tSet ++ [Event.issue (CallKind.storeSetC newSettings),
                        Event.awaited (CallKind.storeSetC newSettings)]
    , ok := s.2 }

/-- The `setAllButton` click handler from options.ts: a plain loop that
issues one rule-engine `set` call per mirror entry and returns without
awaiting any of them. -/
def setAllClick (env : Env) (w : World) : OpResult :=
  { world := replayAll env w.mirror w
  , trace := w.mirror.map (fun p => Event.issue (CallKind.engineSetC p.2))
  , ok := true }

/-- The `clearAllButton` click handler from options.ts: after the user
confirms, clear the rule engine, then clear the synchronized store. -/
def clearAllClick (env : Env) (w : World) (confirmed : Bool) : OpResult :=
  if confirmed = false then
    { world := w, trace := [], ok := true }
  else
    let c := engineClear env w
    let tClear := [Event.issue CallKind.engineClearC, Event.awaited CallKind.engineClearC]
    if c.2 = false then
      { world := c.1, trace := tClear, ok := false }
    else
      let s := storeClear env c.1
      { world := s.1
      , trace := tClear ++ [Event.issue CallKind.storeClearC, Event.awaited CallKind.storeClearC]
      , ok := s.2 }

/-- The initial fetch in options.ts: `api` of `chrome.storage.sync` `get`
for the cookieSettings key, then `onSyncedSettings` on the destructured
value.  On rejection the `then` callback never runs. -/
def initialFetch (env : Env) (w : World) : OpResult :=
  let g := storeGet env w
  let t := [Event.issue CallKind.storeGetC, Event.awaited CallKind.storeGetC]
  if g.2.2 = false then
    { world := g.1, trace := t, ok := false }
  else
    { world := onSyncedSettings g.1 g.2.1, trace := t, ok := true }

/-- One change record of `chrome.storage.onChanged` for a single key. -/
structure StorageChange where
  oldValue : Option CookieSettings
  newValue : Option CookieSettings

/-- The `chrome.storage.onChanged` listener in options.ts: when the change
set contains a record for the `cookieSettings` key, replace the mirror
with its `newValue` (absent means cleared). -/
def onChangedListener (w : World) (cookieSettingsChange : Option StorageChange) : World :=
  match cookieSettingsChange with
  | some change => onSyncedSettings w change.newValue
  | none => w

/-- The shape the specification calls a scheme-and-host pattern with no
path: a nonempty prefix (matched by the regex `.+`, hence free of line
terminators), the literal `//`, a nonempty host part without slashes, and
at most a single trailing slash. -/
def schemeHostNoPath (p : String) : Prop :=
  ∃ x y t, p.data = x ++ '/' :: '/' :: (y ++ t) ∧ x ≠ [] ∧ noLineTerm x = true
    ∧ y ≠ [] ∧ noSlash y = true ∧ (t = [] ∨ t = ['/'])

/- Concrete fixtures for witnesses and counterexamples. -/

def entryA : CookieSettingsEntry :=
  { primaryPattern := "a.com/*", secondaryPattern := none, setting := "block" }

def entryB : CookieSettingsEntry :=
  { primaryPattern := "b.com/*", secondaryPattern := none, setting := "allow" }

def entryC : CookieSettingsEntry :=
  { primaryPattern := "c.com/*", secondaryPattern := some "d.com/*", setting := "session_only" }

/-- Environment in which every external call succeeds. -/
def envOk : Env :=
  { engineClearFails := false, engineSetFails := fun _ => false
  , storeGetFails := false, storeSetFails := false, storeClearFails := false }

/-- Environment in which every rule-engine set call for entryB fails and
everything else succeeds. -/
def envFailB : Env :=
  { engineClearFails := false
  , engineSetFails := fun e => decide (e.primaryPattern = "b.com/*")
  , storeGetFails := false, storeSetFails := false, storeClearFails := false }

def settingsABC : CookieSettings :=
  [(keyForEntry entryA, entryA), (keyForEntry entryB, entryB), (keyForEntry entryC, entryC)]

def wABC : World := { engine := [], store := some settingsABC, mirror := settingsABC }

def wOne : World :=
  { engine := [], store := some [(keyForEntry entryA, entryA)]
  , mirror := [(keyForEntry entryA, entryA)] }

/- ------------------------------------------------------------------
   Helper lemmas: frame properties of the external calls.
   ------------------------------------------------------------------ -/

@[simp] theorem engineClear_fst_mirror (env : Env) (w : World) :
    (engineClear env w).1.mirror = w.mirror := by
  unfold engineClear; split <;> rfl

@[simp] theorem engineClear_fst_store (env : Env) (w : World) :
    (engineClear env w).1.store = w.store := by
  unfold engineClear; split <;> rfl

@[simp] theorem engineSet_fst_mirror (env : Env) (w : World) (e : CookieSettingsEntry) :
    (engineSet env w e).1.mirror = w.mirror := by
  unfold engineSet; split <;> rfl

@[simp] theorem engineSet_fst_store (env : Env) (w : World) (e : CookieSettingsEntry) :
    (engineSet env w e).1.store = w.store := by
  unfold engineSet; split <;> rfl

@[simp] theorem storeSet_fst_mirror (env : Env) (w : World) (v : CookieSettings) :
    (storeSet env w v).1.mirror = w.mirror := by
  unfold storeSet; split <;> rfl

@[simp] theorem storeClear_fst_mirror (env : Env) (w : World) :
    (storeClear env w).1.mirror = w.mirror := by
  unfold storeClear; split <;> rfl

@[simp] theorem replayAll_mirror (env : Env) (es : CookieSettings) (w : World) :
    (replayAll env es w).mirror = w.mirror := by
  induction es generalizing w with
  | nil => rfl
  | cons p es ih => simp [replayAll, List.foldl] at ih ⊢; rw [ih]; simp

@[simp] theorem replayAll_store (env : Env) (es : CookieSettings) (w : World) :
    (replayAll env es w).store = w.store := by
  induction es generalizing w with
  | nil => rfl
  | cons p es ih => simp [replayAll, List.foldl] at ih ⊢; rw [ih]; simp

/- ------------------------------------------------------------------
   Helper lemmas: the embedded regex of autoCompletePath.
   ------------------------------------------------------------------ -/

theorem noSlash_iff (l : List Char) : noSlash l = true ↔ ∀ c ∈ l, c ≠ '/' := by
  simp [noSlash]

theorem mem_of_getLast?_eq {l : List Char} {c : Char} (h : l.getLast? = some c) : c ∈ l := by
  have : ∃ hne, c = l.getLast hne := List.mem_getLast?_eq_getLast (by simp [h])
  obtain ⟨hne, rfl⟩ := this
  exact List.getLast_mem hne

/-- Splitting off the optional trailing slash. -/
theorem stripTrailingSlash_spec (l : List Char) :
    l = stripTrailingSlash l ++ [] ∨ l = stripTrailingSlash l ++ ['/'] := by
  unfold stripTrailingSlash
  split
  · rename_i h
    right
    have hne : l ≠ [] := by
      intro he
      subst he
      simp at h
    have hlast : l.getLast hne = '/' := by
      have h2 := List.getLast?_eq_getLast_of_ne_nil hne
      rw [h] at h2
      exact (Option.some_inj.1 h2.symm)
    have h3 := List.dropLast_append_getLast hne
    rw [hlast] at h3
    exact h3.symm
  · left
    simp

theorem strip_of_noSlash (y : List Char) (hys : noSlash y = true) :
    stripTrailingSlash y = y := by
  unfold stripTrailingSlash
  split
  · rename_i h
    exact absurd rfl ((noSlash_iff y).1 hys '/' (mem_of_getLast?_eq h))
  · rfl

theorem strip_concat_slash (y : List Char) : stripTrailingSlash (y ++ ['/']) = y := by
  unfold stripTrailingSlash
  rw [List.getLast?_concat, List.dropLast_concat]
  simp

theorem tailMatches_iff (l : List Char) :
    tailMatches l = true ↔ stripTrailingSlash l ≠ [] ∧ noSlash (stripTrailingSlash l) = true := by
  simp [tailMatches]

/-- A nonempty slash-free run plus an optional slash matches the regex
tail, and the strip recovers the run. -/
theorem tailMatches_of_decomp (y t : List Char) (hy : y ≠ []) (hys : noSlash y = true)
    (ht : t = [] ∨ t = ['/']) :
    tailMatches (y ++ t) = true ∧ stripTrailingSlash (y ++ t) = y := by
  have hstrip : stripTrailingSlash (y ++ t) = y := by
    rcases ht with rfl | rfl
    · rw [List.append_nil]
      exact strip_of_noSlash y hys
    · exact strip_concat_slash y
  refine ⟨(tailMatches_iff _).2 ⟨?_, ?_⟩, hstrip⟩
  · rw [hstrip]; exact hy
  · rw [hstrip]; exact hys

/-- The matched tail cannot start with a slash. -/
theorem tailMatches_not_cons_slash (l : List Char) (h : tailMatches ('/' :: l) = true) :
    False := by
  obtain ⟨hne, hns⟩ := (tailMatches_iff _).1 h
  obtain ⟨c, s, hstrip⟩ : ∃ c s, stripTrailingSlash ('/' :: l) = c :: s := by
    rcases hq : stripTrailingSlash ('/' :: l) with _ | ⟨c, s⟩
    · exact absurd hq hne
    · exact ⟨c, s, rfl⟩
  have hc : c = '/' := by
    rcases stripTrailingSlash_spec ('/' :: l) with hsp | hsp <;>
      (rw [hstrip] at hsp
       have h2 := congrArg List.head? hsp
       simp at h2
       first
         | exact h2
         | exact h2.symm)
  rw [hstrip] at hns
  exact ((noSlash_iff _).1 hns c (by simp)) hc

/-- The matched tail holds at most one slash. -/
theorem tailMatches_count (l : List Char) (h : tailMatches l = true) :
    l.count '/' ≤ 1 := by
  obtain ⟨hne, hns⟩ := (tailMatches_iff _).1 h
  have hz : (stripTrailingSlash l).count '/' = 0 :=
    List.count_eq_zero.2 (fun hmem => ((noSlash_iff _).1 hns '/' hmem) rfl)
  rcases stripTrailingSlash_spec l with hsp | hsp <;>
    (conv_lhs => rw [hsp]) <;> simp [List.count_append, hz]

/-- Soundness of the greedy search: a successful match exhibits a regex
decomposition of the input, and group 1 is determined by it. -/
theorem matchGroup1From_sound (cs : List Char) :
    ∀ (i : Nat) (g : List Char), matchGroup1From cs i = some g →
      ∃ x rest, cs = x ++ '/' :: '/' :: rest ∧ x ≠ [] ∧ noLineTerm x = true
        ∧ tailMatches rest = true ∧ g = x ++ '/' :: '/' :: stripTrailingSlash rest := by
  intro i
  induction i with
  | zero =>
    intro g h
    simp [matchGroup1From] at h
  | succ i ih =>
    intro g h
    rw [matchGroup1From] at h
    split at h
    · rename_i hcond
      obtain ⟨h1, h2, h3⟩ := hcond
      injection h with hg
      refine ⟨cs.take (i+1), (cs.drop (i+1)).drop 2, ?_, ?_, h2, h3, ?_⟩
      · conv_lhs => rw [← List.take_append_drop (i+1) cs]
        congr 1
        conv_lhs => rw [← List.take_append_drop 2 (cs.drop (i+1))]
        rw [h1]
        rfl
      · intro hnil
        rw [List.take_eq_nil_iff] at hnil
        rcases hnil with h0 | hcs
        · omega
        · rw [hcs] at h1
          simp at h1
      · rw [← hg]
        simp
    · exact ih g h

/-- Completeness of the greedy search: a regex decomposition guarantees a
match once the search window covers the prefix length. -/
theorem matchGroup1From_complete (cs x rest : List Char)
    (hcs : cs = x ++ '/' :: '/' :: rest) (hx : x ≠ [])
    (hnl : noLineTerm x = true) (ht : tailMatches rest = true) :
    ∀ i, x.length ≤ i → (matchGroup1From cs i).isSome = true := by
  intro i
  induction i with
  | zero =>
    intro hle
    have : x.length ≠ 0 := by simpa using hx
    omega
  | succ i ih =>
    intro hle
    rw [matchGroup1From]
    split
    · rfl
    · rename_i hcond
      rcases Nat.lt_or_ge x.length (i+1) with hlt | hge
      · exact ih (by omega)
      · have hxi : x.length = i + 1 := by omega
        exfalso
        apply hcond
        subst hcs
        rw [← hxi]
        refine ⟨?_, ?_, ?_⟩
        · rw [List.drop_left]
          simp
        · rw [List.take_left]
          exact hnl
        · rw [List.drop_left]
          simpa using ht

/-- The regex decomposition of an input is unique (helper: the shorter
prefix equals the longer one). -/
theorem decomp_unique_le (cs x1 r1 x2 r2 : List Char)
    (h1 : cs = x1 ++ '/' :: '/' :: r1) (h2 : cs = x2 ++ '/' :: '/' :: r2)
    (ht1 : tailMatches r1 = true) (hle : x1.length ≤ x2.length) :
    x1 = x2 := by
  have e1 : cs.take x1.length = x1 := by rw [h1]; exact List.take_left x1 _
  have e2 : cs.take x2.length = x2 := by rw [h2]; exact List.take_left x2 _
  have hpre : x2.take x1.length = x1 := by
    have h3 : (cs.take x2.length).take x1.length = cs.take x1.length := by
      rw [List.take_take, Nat.min_eq_left hle]
    rw [e2] at h3
    rw [h3, e1]
  have hx2 : x2 = x1 ++ x2.drop x1.length := by
    conv_lhs => rw [← List.take_append_drop x1.length x2]
    rw [hpre]
  have hmid : '/' :: '/' :: r1 = x2.drop x1.length ++ '/' :: '/' :: r2 := by
    have hcat : x1 ++ '/' :: '/' :: r1 = x1 ++ (x2.drop x1.length ++ '/' :: '/' :: r2) := by
      rw [← List.append_assoc, ← hx2, ← h1, ← h2]
    exact List.append_cancel_left hcat
  rcases hu : x2.drop x1.length with _ | ⟨c1, _ | ⟨c2, u2⟩⟩
  · rw [hu] at hx2
    rw [hx2]
    simp
  · rw [hu] at hmid
    simp at hmid
    obtain ⟨hc1, hr1⟩ := hmid
    rw [hr1] at ht1
    exact absurd ht1 (fun h => tailMatches_not_cons_slash _ h)
  · rw [hu] at hmid
    simp at hmid
    obtain ⟨hc1, hc2, hr1⟩ := hmid
    exfalso
    have hcount := tailMatches_count r1 ht1
    rw [hr1] at hcount
    simp [List.count_append] at hcount
    omega

/-- The regex decomposition of an input is unique. -/
theorem decomp_unique (cs x1 r1 x2 r2 : List Char)
    (h1 : cs = x1 ++ '/' :: '/' :: r1) (h2 : cs = x2 ++ '/' :: '/' :: r2)
    (ht1 : tailMatches r1 = true) (ht2 : tailMatches r2 = true) :
    x1 = x2 ∧ r1 = r2 := by
  have hx : x1 = x2 := by
    rcases Nat.le_total x1.length x2.length with hle | hle
    · exact decomp_unique_le cs x1 r1 x2 r2 h1 h2 ht1 hle
    · exact (decomp_unique_le cs x2 r2 x1 r1 h2 h1 ht2 hle).symm
  refine ⟨hx, ?_⟩
  subst hx
  have := List.append_cancel_left (h1 ▸ h2 : x1 ++ '/' :: '/' :: r1 = x1 ++ '/' :: '/' :: r2)
  simpa using this

/-- Full characterization of the embedded regex match: it succeeds exactly
on inputs of the shape `.+` then `//` then `[^/]+` then an optional slash,
and group 1 is the input without the optional final slash. -/
theorem matchGroup1_eq_some_iff (cs g : List Char) :
    matchGroup1 cs = some g ↔
      ∃ x rest, cs = x ++ '/' :: '/' :: rest ∧ x ≠ [] ∧ noLineTerm x = true
        ∧ tailMatches rest = true ∧ g = x ++ '/' :: '/' :: stripTrailingSlash rest := by
  constructor
  · intro h
    exact matchGroup1From_sound cs cs.length g h
  · rintro ⟨x, rest, hcs, hx, hnl, ht, hg⟩
    have hlen : x.length ≤ cs.length := by
      rw [hcs]
      simp
    have hsome := matchGroup1From_complete cs x rest hcs hx hnl ht cs.length hlen
    obtain ⟨g2, hg2⟩ := Option.isSome_iff_exists.1 hsome
    obtain ⟨x2, rest2, hcs2, hx2, hnl2, ht2, hgd⟩ := matchGroup1From_sound cs cs.length g2 hg2
    obtain ⟨hxx, hrr⟩ := decomp_unique cs x rest x2 rest2 hcs hcs2 ht ht2
    rw [matchGroup1, hg2, hgd, ← hxx, ← hrr, ← hg]

/-- Key step for idempotence, on reversed lists: a string which, read
backwards, is star, slash, a nonslash character and so on admits no regex
decomposition. -/
theorem revContra (y2r : List Char) (hy2ne : y2r ≠ []) (hy2s : ∀ c ∈ y2r, c ≠ '/')
    (t2r : List Char) (ht2 : t2r = [] ∨ t2r = ['/'])
    (x2r sr xr : List Char) (hsne : sr ≠ []) (hss : ∀ c ∈ sr, c ≠ '/')
    (heq : t2r ++ y2r ++ '/' :: '/' :: x2r = '*' :: '/' :: (sr ++ '/' :: '/' :: xr)) :
    False := by
  rcases ht2 with rfl | rfl
  · rw [List.nil_append] at heq
    rcases y2r with _ | ⟨c, ys⟩
    · exact hy2ne rfl
    · rw [List.cons_append] at heq
      have hc : c = '*' := (List.cons.injEq _ _ _ _ ▸ heq).1
      have htl : ys ++ '/' :: '/' :: x2r = '/' :: (sr ++ '/' :: '/' :: xr) :=
        (List.cons.injEq _ _ _ _ ▸ heq).2
      rcases ys with _ | ⟨c2, ys2⟩
      · rw [List.nil_append] at htl
        have htl2 : '/' :: x2r = sr ++ '/' :: '/' :: xr :=
          (List.cons.injEq _ _ _ _ ▸ htl).2
        rcases sr with _ | ⟨d, ds⟩
        · exact hsne rfl
        · rw [List.cons_append] at htl2
          have hd : '/' = d := (List.cons.injEq _ _ _ _ ▸ htl2).1
          exact hss d (by simp) hd.symm
      · rw [List.cons_append] at htl
        have hc2 : c2 = '/' := (List.cons.injEq _ _ _ _ ▸ htl).1
        exact hy2s c2 (by simp) hc2
  · rw [List.cons_append, List.nil_append] at heq
    have : '/' = '*' := (List.cons.injEq _ _ _ _ ▸ heq).1
    simp at this

/-- A pattern the function has just completed (ending in a nonslash run,
then a single slash, then a star) admits no further regex match. -/
theorem matchGroup1_result_none (x s : List Char) (hs : s ≠ [])
    (hss : noSlash s = true) :
    matchGroup1 ((x ++ '/' :: '/' :: s) ++ ['/', '*']) = none := by
  rcases h : matchGroup1 ((x ++ '/' :: '/' :: s) ++ ['/', '*']) with _ | g2
  · rfl
  · exfalso
    obtain ⟨x2, rest2, hcs2, hx2, hnl2, ht2, hg2⟩ := (matchGroup1_eq_some_iff _ _).1 h
    obtain ⟨hne2, hns2⟩ := (tailMatches_iff _).1 ht2
    have hcseq : x2 ++ '/' :: '/' :: rest2 = x ++ '/' :: '/' :: (s ++ ['/', '*']) := by
      rw [← hcs2]
      simp
    rcases stripTrailingSlash_spec rest2 with hspec | hspec
    · apply revContra (stripTrailingSlash rest2).reverse
        (by simpa using hne2)
        (fun c hc => (noSlash_iff _).1 hns2 c (List.mem_reverse.1 hc))
        [] (Or.inl rfl) x2.reverse s.reverse x.reverse
        (by simpa using hs)
        (fun c hc => (noSlash_iff _).1 hss c (List.mem_reverse.1 hc))
      have hrev := congrArg List.reverse hcseq
      rw [hspec] at hrev
      simpa [List.reverse_append, List.append_assoc] using hrev
    · apply revContra (stripTrailingSlash rest2).reverse
        (by simpa using hne2)
        (fun c hc => (noSlash_iff _).1 hns2 c (List.mem_reverse.1 hc))
        ['/'] (Or.inr rfl) x2.reverse s.reverse x.reverse
        (by simpa using hs)
        (fun c hc => (noSlash_iff _).1 hss c (List.mem_reverse.1 hc))
      have hrev := congrArg List.reverse hcseq
      rw [hspec] at hrev
      simpa [List.reverse_append, List.append_assoc] using hrev

/-- A pattern of the scheme-and-host shape is accepted by the embedded
regex. -/
theorem schemeHostNoPath_isSome (p : String) (h : schemeHostNoPath p) :
    (matchGroup1 p.data).isSome = true := by
  obtain ⟨x, y, t, hp, hx, hnl, hy, hys, ht⟩ := h
  have htm := (tailMatches_of_decomp y t hy hys ht).1
  show (matchGroup1From p.data p.data.length).isSome = true
  refine matchGroup1From_complete p.data x (y ++ t) hp hx hnl htm p.data.length ?_
  rw [hp]
  simp

/- ------------------------------------------------------------------
   Claim theorems.
   ------------------------------------------------------------------ -/

/-- C1: for every canonical rule set (the mirror), every entry, and every
failure pattern of the concurrent replay set-calls, `removeEntry` persists
exactly the mirror minus the key of the removed entry as the new canonical
rule set (provided the initial clear and the final persist themselves
succeed); an entry whose replay fails is retained in the persisted set,
never dropped. -/
theorem removeEntry_persists_remaining (env : Env) (w : World) (entry : CookieSettingsEntry)
    (hclear : env.engineClearFails = false) (hpersist : env.storeSetFails = false) :
    (removeEntry env w entry).world.store = some (removeKey w.mirror (keyForEntry entry))
    ∧ ∀ p ∈ w.mirror, p.1 ≠ keyForEntry entry →
        p ∈ removeKey w.mirror (keyForEntry entry) := by
  constructor
  · simp [removeEntry, engineClear, hclear, storeSet, hpersist]
  · intro p hp hne
    simp [removeKey, List.mem_filter, hp, hne]

/-- C1 witness: with canonical set of entryA, entryB, entryC and every
replay of entryB failing, `removeEntry` of entryA persists exactly the set
of entryB and entryC — entryB is retained despite its replay failing. -/
theorem removeEntry_persists_remaining_witness :
    ((removeEntry envFailB wABC entryA).world.store
        = some (removeKey wABC.mirror (keyForEntry entryA))
      ∧ (keyForEntry entryB, entryB) ∈ removeKey wABC.mirror (keyForEntry entryA))
    ∧ removeKey wABC.mirror (keyForEntry entryA)
        = [(keyForEntry entryB, entryB), (keyForEntry entryC, entryC)] :=
  ⟨⟨(removeEntry_persists_remaining envFailB wABC entryA rfl rfl).1,
    (removeEntry_persists_remaining envFailB wABC entryA rfl rfl).2
      (keyForEntry entryB, entryB) (by decide) (by decide)⟩,
   by decide⟩

/-- C2 counterexample: the key of a rule with an absent secondary pattern
is not the primary pattern followed by the separator and the empty string —
the JavaScript template literal stringifies the absent value as the word
undefined. -/
theorem keyForEntry_counterexample :
    ¬ (keyForEntry entryA = entryA.primaryPattern ++ ";" ++ "") := by
  decide

/-- C2 amended: two rules with equal primaryPattern and equal (including
both-absent) secondaryPattern have equal keys; the key is the primary
pattern, the separator, and the secondary pattern when present — but the
string undefined, not the empty string, when absent. -/
theorem keyForEntry_amended (e1 e2 : CookieSettingsEntry)
    (hp : e1.primaryPattern = e2.primaryPattern)
    (hs : e1.secondaryPattern = e2.secondaryPattern) :
    keyForEntry e1 = keyForEntry e2
    ∧ (∀ s, e1.secondaryPattern = some s →
        keyForEntry e1 = e1.primaryPattern ++ ";" ++ s)
    ∧ (e1.secondaryPattern = none →
        keyForEntry e1 = e1.primaryPattern ++ ";" ++ "undefined") := by
  refine ⟨by simp [keyForEntry, hp, hs], ?_, ?_⟩
  · intro s h
    simp [keyForEntry, h, jsTemplateOpt]
  · intro h
    simp [keyForEntry, h, jsTemplateOpt]

/-- C2 witness: concrete keys for a present and an absent secondary
pattern, and key agreement for two rules differing only in setting. -/
theorem keyForEntry_amended_witness :
    keyForEntry entryC = keyForEntry { entryC with setting := "allow" }
    ∧ keyForEntry entryC = entryC.primaryPattern ++ ";" ++ "d.com/*"
    ∧ keyForEntry entryA = entryA.primaryPattern ++ ";" ++ "undefined" :=
  ⟨(keyForEntry_amended entryC { entryC with setting := "allow" } rfl rfl).1,
   (keyForEntry_amended entryC entryC rfl rfl).2.1 "d.com/*" rfl,
   (keyForEntry_amended entryA entryA rfl rfl).2.2 rfl⟩

/-- C3 amended: for every canonical rule set with N entries, the set-all
click handler issues exactly N set-calls to the rule engine, one per entry,
never throws regardless of which calls fail, and does not alter the
canonical rule set — but it returns immediately after issuing the calls,
without waiting for any of them to settle. -/
theorem setAllClick_issues_each_entry (env : Env) (w : World) :
    (setAllClick env w).trace = w.mirror.map (fun p => Event.issue (CallKind.engineSetC p.2))
    ∧ (setAllClick env w).trace.length = w.mirror.length
    ∧ (setAllClick env w).ok = true
    ∧ (setAllClick env w).world.store = w.store
    ∧ (setAllClick env w).world.mirror = w.mirror
    ∧ ∀ c, Event.awaited c ∉ (setAllClick env w).trace := by
  refine ⟨rfl, by simp [setAllClick], rfl, by simp [setAllClick], by simp [setAllClick], ?_⟩
  intro c hmem
  simp [setAllClick, List.mem_map] at hmem

/-- C3 counterexample: on a one-entry canonical set with every call
succeeding, the claim as stated fails — the handler issues its one
set-call, does not throw, does not alter the canonical set, yet does not
wait for the issued call to settle before returning. -/
theorem setAllClick_counterexample :
    ¬ ((setAllClick envOk wOne).trace.length = 1
       ∧ (setAllClick envOk wOne).ok = true
       ∧ (setAllClick envOk wOne).world.store = wOne.store
       ∧ waitsForIssued (setAllClick envOk wOne).trace = true) := by
  decide

/-- C4: in every execution of `removeEntry` whose initial clear succeeds,
the external calls occur strictly in the order: exactly one rule-engine
clear, then the replay set-calls for the remaining entries, then the
persist of the remaining set — for every failure pattern of the replay
calls, so replay failures never lead back to clearing and never abort the
persist step. -/
theorem removeEntry_call_order (env : Env) (w : World) (entry : CookieSettingsEntry)
    (hclear : env.engineClearFails = false) :
    (removeEntry env w entry).trace =
      Event.issue CallKind.engineClearC :: Event.awaited CallKind.engineClearC ::
      ((removeKey w.mirror (keyForEntry entry)).map (fun p => Event.issue (CallKind.engineSetC p.2))
        ++ (removeKey w.mirror (keyForEntry entry)).map (fun p => Event.awaited (CallKind.engineSetC p.2))
        ++ [Event.issue (CallKind.storeSetC (removeKey w.mirror (keyForEntry entry))),
            Event.awaited (CallKind.storeSetC (removeKey w.mirror (keyForEntry entry)))]) := by
  simp [removeEntry, engineClear, hclear, replayTrace]

/-- C4 witness: the concrete ordered trace of `removeEntry` of entryA on
the three-entry world while every replay of entryB fails. -/
theorem removeEntry_call_order_witness :
    (removeEntry envFailB wABC entryA).trace =
      Event.issue CallKind.engineClearC :: Event.awaited CallKind.engineClearC ::
      ((removeKey wABC.mirror (keyForEntry entryA)).map (fun p => Event.issue (CallKind.engineSetC p.2))
        ++ (removeKey wABC.mirror (keyForEntry entryA)).map (fun p => Event.awaited (CallKind.engineSetC p.2))
        ++ [Event.issue (CallKind.storeSetC (removeKey wABC.mirror (keyForEntry entryA))),
            Event.awaited (CallKind.storeSetC (removeKey wABC.mirror (keyForEntry entryA)))]) :=
  removeEntry_call_order envFailB wABC entryA rfl

/-- C5: the confirmed clear-all click performs exactly two external calls
in sequence — clear the rule engine, then clear the canonical store — and
is idempotent: run twice in a row the canonical set is empty (absent) both
times and the second run does not error; and whenever the canonical-store
clear fails, the canonical state retains its prior value unchanged. -/
theorem clearAllClick_contract (env : Env) (w : World)
    (hec : env.engineClearFails = false) (hsc : env.storeClearFails = false) :
    (clearAllClick env w true).trace =
      [Event.issue CallKind.engineClearC, Event.awaited CallKind.engineClearC,
       Event.issue CallKind.storeClearC, Event.awaited CallKind.storeClearC]
    ∧ (clearAllClick env w true).world.store = none
    ∧ (clearAllClick env w true).ok = true
    ∧ (clearAllClick env (clearAllClick env w true).world true).world.store = none
    ∧ (clearAllClick env (clearAllClick env w true).world true).ok = true
    ∧ ∀ env2 : Env, env2.storeClearFails = true →
        (clearAllClick env2 w true).world.store = w.store := by
  refine ⟨?_, ?_, ?_, ?_, ?_, ?_⟩
  · simp [clearAllClick, engineClear, hec, storeClear, hsc]
  · simp [clearAllClick, engineClear, hec, storeClear, hsc]
  · simp [clearAllClick, engineClear, hec, storeClear, hsc]
  · simp [clearAllClick, engineClear, hec, storeClear, hsc]
  · simp [clearAllClick, engineClear, hec, storeClear, hsc]
  · intro env2 h2
    by_cases hc2 : env2.engineClearFails <;>
      simp [clearAllClick, engineClear, hc2, storeClear, h2]

/-- C5 witness: clear-all on the three-entry world empties the canonical
store, doing it again keeps it empty without error, and a failing store
clear leaves the store unchanged. -/
theorem clearAllClick_contract_witness :
    (clearAllClick envOk wABC true).world.store = none
    ∧ (clearAllClick envOk (clearAllClick envOk wABC true).world true).world.store = none
    ∧ (clearAllClick envOk (clearAllClick envOk wABC true).world true).ok = true
    ∧ (clearAllClick { envOk with storeClearFails := true } wABC true).world.store = wABC.store :=
  ⟨(clearAllClick_contract envOk wABC rfl rfl).2.1,
   (clearAllClick_contract envOk wABC rfl rfl).2.2.2.1,
   (clearAllClick_contract envOk wABC rfl rfl).2.2.2.2.1,
   (clearAllClick_contract envOk wABC rfl rfl).2.2.2.2.2 _ rfl⟩

/-- C6: when the completion callback fires with the ambient error signal
present, the adapter promise rejects with that error; when no error is
present, it resolves with exactly the value delivered to the callback
(including the empty value when the callback produced none). -/
theorem apiOutcome_contract {α : Type} (lastError : Option ChromeError) (cbArg : Option α) :
    (∀ e, lastError = some e → apiOutcome lastError cbArg = Except.error e)
    ∧ (lastError = none → apiOutcome lastError cbArg = Except.ok cbArg) := by
  constructor
  · intro e h
    subst h
    rfl
  · intro h
    subst h
    rfl

/-- C6 witness: a concrete rejection carrying the error and a concrete
resolution with the empty callback value. -/
theorem apiOutcome_contract_witness :
    apiOutcome (some { message := some "boom" }) (some (3 : Nat))
      = Except.error { message := some "boom" }
    ∧ apiOutcome (none : Option ChromeError) (none : Option Nat) = Except.ok none :=
  ⟨(apiOutcome_contract (some { message := some "boom" }) (some (3 : Nat))).1 _ rfl,
   (apiOutcome_contract none (none : Option Nat)).2 rfl⟩

/-- C7: every call through the wrapped adapter triggers exactly one status
update after it settles, however it settled; the update renders the error
message when the ambient error signal is present and the empty string
otherwise, and it never changes the settled outcome of the call that
triggered it. -/
theorem wrappedApi_contract {α : Type} (lastError : Option ChromeError) (cbArg : Option α) :
    (wrappedApi lastError cbArg).statusUpdates = [updateStatusText lastError]
    ∧ (wrappedApi lastError cbArg).statusUpdates.length = 1
    ∧ (wrappedApi lastError cbArg).result = apiOutcome lastError cbArg
    ∧ updateStatusText none = ""
    ∧ (∀ e m, lastError = some e → e.message = some m → m ≠ "" →
        updateStatusText lastError = m) := by
  refine ⟨rfl, rfl, rfl, rfl, ?_⟩
  intro e m he hm hne
  subst he
  simp [updateStatusText, hm, hne]

/-- C7 witness: a concrete failed call triggers exactly one status update
rendering the error message. -/
theorem wrappedApi_contract_witness :
    (wrappedApi (some { message := some "boom" }) (some (3 : Nat))).statusUpdates.length = 1
    ∧ updateStatusText (some { message := some "boom" }) = "boom" :=
  ⟨(wrappedApi_contract (some { message := some "boom" }) (some (3 : Nat))).2.1,
   (wrappedApi_contract (α := Nat) (some { message := some "boom" }) none).2.2.2.2
     { message := some "boom" } "boom" rfl rfl (by decide)⟩

/-- C8: an absent persisted value is never an error — when the initial
load finds no persisted canonical rule set, and when an external change
notification delivers no value, the in-memory canonical rule set becomes
the empty set. -/
theorem absent_value_empty_set (env : Env) (w : World)
    (hget : env.storeGetFails = false) (hstore : w.store = none) :
    (initialFetch env w).world.mirror = []
    ∧ ∀ (w2 : World) (oldV : Option CookieSettings),
        (onChangedListener w2 (some { oldValue := oldV, newValue := none })).mirror = [] := by
  constructor
  · simp [initialFetch, storeGet, hget, hstore, onSyncedSettings]
  · intro w2 oldV
    rfl

/-- C8 witness: loading from an absent store yields the empty mirror, and
a change notification clearing the value empties a populated mirror. -/
theorem absent_value_empty_set_witness :
    (initialFetch envOk { engine := [], store := none, mirror := settingsABC }).world.mirror = []
    ∧ (onChangedListener wABC (some { oldValue := some settingsABC, newValue := none })).mirror = [] :=
  ⟨(absent_value_empty_set envOk _ rfl rfl).1,
   (absent_value_empty_set envOk { engine := [], store := none, mirror := settingsABC } rfl rfl).2
     wABC (some settingsABC)⟩

/-- C9: persisting to the synchronized store leaves the in-memory mirror
unchanged, and neither the remove operation nor the add-form submit (nor
set-all or clear-all) writes the mirror; the mirror is replaced only by
the synced-settings path that load and change notifications invoke. -/
theorem mirror_unchanged_by_operations (env : Env) (w : World) (entry : CookieSettingsEntry)
    (primaryInput secondaryInput settingValue : String) (v : CookieSettings) :
    (storeSet env w v).1.mirror = w.mirror
    ∧ (removeEntry env w entry).world.mirror = w.mirror
    ∧ (addFormSubmit env w primaryInput secondaryInput settingValue).world.mirror = w.mirror
    ∧ (setAllClick env w).world.mirror = w.mirror
    ∧ (∀ confirmed, (clearAllClick env w confirmed).world.mirror = w.mirror)
    ∧ (∀ v2, (onSyncedSettings w (some v2)).mirror = v2) := by
  refine ⟨by simp, ?_, ?_, by simp [setAllClick], ?_, fun v2 => rfl⟩
  · by_cases h : env.engineClearFails <;> simp [removeEntry, engineClear, h]
  · unfold addFormSubmit
    dsimp only
    split <;> (split <;> simp)
  · intro confirmed
    by_cases hcf : confirmed <;> by_cases h : env.engineClearFails <;>
      simp [clearAllClick, engineClear, h, hcf]

/-- C10: `autoCompletePath` appends the slash-star suffix to any pattern of
the scheme-and-host-with-no-path shape (dropping a single trailing slash if
present), returns every other pattern unchanged, and is idempotent. -/
theorem autoCompletePath_spec :
    (∀ x y : List Char, x ≠ [] → noLineTerm x = true → y ≠ [] → noSlash y = true →
        autoCompletePath (String.mk (x ++ '/' :: '/' :: y))
          = String.mk ((x ++ '/' :: '/' :: y) ++ ['/', '*'])
        ∧ autoCompletePath (String.mk (x ++ '/' :: '/' :: (y ++ ['/'])))
          = String.mk ((x ++ '/' :: '/' :: y) ++ ['/', '*']))
    ∧ (∀ p : String, ¬ schemeHostNoPath p → autoCompletePath p = p)
    ∧ (∀ p : String, autoCompletePath (autoCompletePath p) = autoCompletePath p) := by
  refine ⟨?_, ?_, ?_⟩
  · intro x y hx hnl hy hys
    constructor
    · have h1 : matchGroup1 (x ++ '/' :: '/' :: y) = some (x ++ '/' :: '/' :: y) := by
        rw [matchGroup1_eq_some_iff]
        refine ⟨x, y, rfl, hx, hnl, ?_, ?_⟩
        · have := (tailMatches_of_decomp y [] hy hys (Or.inl rfl)).1
          simpa using this
        · rw [strip_of_noSlash y hys]
      simp [autoCompletePath, h1]
    · have h2 : matchGroup1 (x ++ '/' :: '/' :: (y ++ ['/'])) = some (x ++ '/' :: '/' :: y) := by
        rw [matchGroup1_eq_some_iff]
        refine ⟨x, y ++ ['/'], rfl, hx, hnl, ?_, ?_⟩
        · exact (tailMatches_of_decomp y ['/'] hy hys (Or.inr rfl)).1
        · rw [(tailMatches_of_decomp y ['/'] hy hys (Or.inr rfl)).2]
      simp [autoCompletePath, h2]
  · intro p hnot
    rcases hm : matchGroup1 p.data with _ | g
    · simp [autoCompletePath, hm]
    · exfalso
      apply hnot
      obtain ⟨x, rest, hcs, hx, hnl, ht, hg⟩ := (matchGroup1_eq_some_iff _ _).1 hm
      obtain ⟨hne, hns⟩ := (tailMatches_iff _).1 ht
      rcases stripTrailingSlash_spec rest with hspec | hspec
      · refine ⟨x, stripTrailingSlash rest, [], ?_, hx, hnl, hne, hns, Or.inl rfl⟩
        rw [hcs]
        conv_lhs => rw [hspec]
      · refine ⟨x, stripTrailingSlash rest, ['/'], ?_, hx, hnl, hne, hns, Or.inr rfl⟩
        rw [hcs]
        conv_lhs => rw [hspec]
  · intro p
    rcases hm : matchGroup1 p.data with _ | g
    · simp [autoCompletePath, hm]
    · have hap : autoCompletePath p = String.mk (g ++ ['/', '*']) := by
        simp [autoCompletePath, hm]
      rw [hap]
      obtain ⟨x, rest, hcs, hx, hnl, ht, hg⟩ := (matchGroup1_eq_some_iff _ _).1 hm
      obtain ⟨hne, hns⟩ := (tailMatches_iff _).1 ht
      have hnone : matchGroup1 (g ++ ['/', '*']) = none := by
        rw [hg]
        exact matchGroup1_result_none x (stripTrailingSlash rest) hne hns
      simp [autoCompletePath, hnone]

/-- C10 witness: concrete completions with and without a trailing slash, a
concrete pattern with a path left unchanged, and a concrete idempotence
instance. -/
theorem autoCompletePath_spec_witness :
    autoCompletePath (String.mk ("http:".data ++ '/' :: '/' :: "example.com".data))
        = String.mk (("http:".data ++ '/' :: '/' :: "example.com".data) ++ ['/', '*'])
    ∧ autoCompletePath (String.mk ("http:".data ++ '/' :: '/' :: ("example.com".data ++ ['/'])))
        = String.mk (("http:".data ++ '/' :: '/' :: "example.com".data) ++ ['/', '*'])
    ∧ String.mk ("http:".data ++ '/' :: '/' :: "example.com".data) = "http://example.com"
    ∧ String.mk (("http:".data ++ '/' :: '/' :: "example.com".data) ++ ['/', '*']) = "http://example.com/*"
    ∧ autoCompletePath "http://a/b" = "http://a/b"
    ∧ autoCompletePath (autoCompletePath "http://x") = autoCompletePath "http://x" := by
  refine ⟨(autoCompletePath_spec.1 "http:".data "example.com".data
            (by decide) (by decide) (by decide) (by decide)).1,
          (autoCompletePath_spec.1 "http:".data "example.com".data
            (by decide) (by decide) (by decide) (by decide)).2,
          by decide, by decide,
          autoCompletePath_spec.2.1 "http://a/b"
            (fun h => absurd (schemeHostNoPath_isSome _ h) (by decide)),
          autoCompletePath_spec.2.2 "http://x"⟩
